import Mathlib

/-!
Verification of the `ts-math-vec` library: a shallow embedding of its
vector-algebra engine (`src/lib/vector/math.ts`), scalar layer
(`src/lib/scalar/math/math.ts`, curried forms), combinators
(`src/lib/fn/zip.ts`, `src/lib/fn/maybe1.ts`) and the `NDimVector`
named-component wrapper class, together with theorems settling the
specification claims about them.

Number model: JavaScript numbers are IEEE-754 doubles.  We model them as
exact rationals extended with the special values `nan`, `inf`, `ninf`,
with the JS arithmetic rules for the special values (0/0 = NaN,
nonzero/0 = ±Infinity, NaN propagation, ∞ − ∞ = NaN, ∞ · 0 = NaN, …).
Two deliberate abstractions, stated once here:
* rationals are exact where IEEE rounds; every computation a claim
  evaluates is exact in IEEE as well (small integers, no rounding), so
  the model and IEEE agree on all inputs the theorems touch;
* negative zero is conflated with zero (the two are equal under the
  numeric equality `==` that the claims use, and no claim's observable
  behavior distinguishes them).
-/

namespace TsVec

/-- A JavaScript number: an exact rational, or one of the IEEE special
values NaN, +Infinity, -Infinity. -/
inductive JSNum : Type where
  | num (q : ℚ)
  | nan
  | inf
  | ninf
deriving DecidableEq, Repr

instance : Inhabited JSNum := ⟨JSNum.nan⟩

namespace JSNum

/-- JS `+` on numbers: NaN propagates, ∞ + (−∞) = NaN, otherwise an
infinity absorbs, finite values add exactly. -/
def jsAdd : JSNum → JSNum → JSNum
  | nan, _ => nan
  | _, nan => nan
  | inf, ninf => nan
  | ninf, inf => nan
  | inf, _ => inf
  | _, inf => inf
  | ninf, _ => ninf
  | _, ninf => ninf
  | num a, num b => num (a + b)

/-- JS `-` on numbers: NaN propagates, ∞ − ∞ = NaN, finite values
subtract exactly. -/
def jsSub : JSNum → JSNum → JSNum
  | nan, _ => nan
  | _, nan => nan
  | inf, inf => nan
  | ninf, ninf => nan
  | inf, _ => inf
  | ninf, _ => ninf
  | num _, inf => ninf
  | num _, ninf => inf
  | num a, num b => num (a - b)

/-- JS `*` on numbers: NaN propagates, ∞ · 0 = NaN, infinities follow
the sign rule, finite values multiply exactly. -/
def jsMul : JSNum → JSNum → JSNum
  | nan, _ => nan
  | _, nan => nan
  | inf, inf => inf
  | inf, ninf => ninf
  | ninf, inf => ninf
  | ninf, ninf => inf
  | inf, num q => if q = 0 then nan else if 0 < q then inf else ninf
  | num q, inf => if q = 0 then nan else if 0 < q then inf else ninf
  | ninf, num q => if q = 0 then nan else if 0 < q then ninf else inf
  | num q, ninf => if q = 0 then nan else if 0 < q then ninf else inf
  | num a, num b => num (a * b)

/-- JS `/` on numbers: NaN propagates, ∞ / ∞ = NaN, 0/0 = NaN,
nonzero/0 = ±Infinity (sign of zero conflated to +0), finite/∞ = 0,
finite values divide exactly. -/
def jsDiv : JSNum → JSNum → JSNum
  | nan, _ => nan
  | _, nan => nan
  | inf, inf => nan
  | inf, ninf => nan
  | ninf, inf => nan
  | ninf, ninf => nan
  | inf, num q => if 0 ≤ q then inf else ninf
  | ninf, num q => if 0 ≤ q then ninf else inf
  | num _, inf => num 0
  | num _, ninf => num 0
  | num a, num b =>
    if b = 0 then (if a = 0 then nan else if 0 < a then inf else ninf)
    else num (a / b)

/-- JS numeric equality `==` restricted to numbers: NaN is not equal to
anything (itself included), infinities compare by identity, finite
values compare exactly (0 == -0 holds since the zeros are conflated). -/
def jsEq : JSNum → JSNum → Bool
  | num a, num b => decide (a = b)
  | inf, inf => true
  | ninf, ninf => true
  | _, _ => false

end JSNum

open JSNum

/-- Exact square root of a nonnegative rational: `some r` with `r * r = q`
when `q` is a perfect square (numerator and denominator both perfect
squares in lowest terms), `none` otherwise. -/
def ratSqrt (q : ℚ) : Option ℚ :=
  let a := q.num.toNat
  let b := q.den
  if Nat.sqrt a * Nat.sqrt a = a ∧ Nat.sqrt b * Nat.sqrt b = b then
    some ((Nat.sqrt a : ℚ) / (Nat.sqrt b : ℚ))
  else none

/-- `Math.sqrt`: NaN for NaN, −∞ and negative inputs, ∞ for ∞; on a
nonnegative perfect-square rational the IEEE result is exact and is
returned exactly.  A non-perfect-square input would round to an
irrational-approximating double that an exact-rational carrier cannot
represent; such inputs are outside the model (no claim reaches one) and
are mapped to `nan` as an explicit unmodelled marker. -/
def jsqrt : JSNum → JSNum
  | nan => nan
  | ninf => nan
  | inf => inf
  | num q =>
    if q < 0 then nan
    else match ratSqrt q with
      | some r => num r
      | none => nan

/-! ## Scalar layer — `src/lib/scalar/math/math.ts` and the curried
forms of `curry.ts` (the unnamed source file exporting `addTo`, `mulBy`,
`subFrom`, `subBY`, `divInto`, `divBy`). -/

/-- `sum(ns) = ns.reduce(add, 0)`: left fold of `+` seeded at 0. -/
def sum (ns : List JSNum) : JSNum := ns.foldl jsAdd (num 0)

/-- `square(n) = n * n`. -/
def square (n : JSNum) : JSNum := jsMul n n

/-- `mulBy = (l) => (r) => mul(l, r)`: fixes the first factor. -/
def mulBy (l : JSNum) : JSNum → JSNum := fun r => jsMul l r

/-- `divBy = (divisor) => (dividend) => div(dividend, divisor)`: fixes
the divisor. -/
def divBy (divisor : JSNum) : JSNum → JSNum := fun dividend => jsDiv dividend divisor

/-! ## `zipWith` — `src/lib/fn/zip.ts`

```
zipWith(fn, ...xs) =
  xs.some(isEmpty) ? []
                   : [fn(...xs.map(head)), ...zipWith(fn, ...xs.map(tail))]
```

The recursion is not structural (with zero input arrays it calls itself
with identical arguments and never terminates), so the embedding is
fuel-indexed: `none` means the recursion did not finish within the given
fuel, and divergence is `none` at every fuel.  `fn(...heads)` receives
one argument per input array; it is modelled as a function on the list
of heads.  `head`/`tail` are the slice-based helpers of
`src/lib/fn/utils.ts`; they copy and never mutate their input, and the
embedding is pure, so no input sequence is mutated. -/

/-- Fuel-indexed embedding of the recursive `zipWith`.  `List.headI` is
only evaluated on nonempty lists (the `isEmpty` guard), matching the JS
`head`. -/
def zipWithFuel {α β : Type} [Inhabited α] (fn : List α → β) :
    ℕ → List (List α) → Option (List β)
  | 0, _ => none
  | fuel + 1, xs =>
    if xs.any List.isEmpty then some []
    else
      match zipWithFuel fn fuel (xs.map List.tail) with
      | none => none
      | some rest => some (fn (xs.map List.headI) :: rest)

/-- Length of the shortest input array (only meaningful for a nonempty
family; `0` for the empty family, where the recursion diverges anyway). -/
def shortest {α : Type} : List (List α) → ℕ
  | [] => 0
  | [l] => l.length
  | l :: ls => min l.length (shortest ls)

/-- The embedded `zipWith`, run with fuel `shortest + 1` — enough for
every terminating call (proved below); `none` exactly when the source
recursion diverges (zero input arrays). -/
def zipWithRun {α β : Type} [Inhabited α] (fn : List α → β)
    (xs : List (List α)) : Option (List β) :=
  zipWithFuel fn (shortest xs + 1) xs

/-- The source `zipWith` call never terminates on `xs`: it yields no
result under any fuel (stack overflow in JS). -/
def zwDiverges (fn : List ℚ → ℚ) (xs : List (List ℚ)) : Prop :=
  ∀ fuel, zipWithFuel fn fuel xs = none

/-! ## Vector layer — `src/lib/vector/math.ts`

The module's local `zipWith(fn, xs, ys)` forwards the two arrays to the
variadic combinator above.  A binary `fn` receives the two heads as its
two arguments: we lift it to a function on the head list.  The defaults
in the lift are unreachable: the head list always has one element per
input array (JS would pass `undefined` there; `nan` stands in as the
value `undefined` turns into under arithmetic). -/

/-- Lift of a binary component function to the variadic `zipWith`
argument-list calling convention. -/
def bin2 (f : JSNum → JSNum → JSNum) : List JSNum → JSNum :=
  fun l => f (l.getD 0 nan) (l.getD 1 nan)

/-- The module-local binary `zipWith` of `vector/math.ts`; the binary
call always terminates (proved below), so the `[]` fallback is dead. -/
def vzip (f : JSNum → JSNum → JSNum) (xs ys : List JSNum) : List JSNum :=
  (zipWithRun (bin2 f) [xs, ys]).getD []

/-- `Array.prototype.map` with the `(element, index)` callback, as used
by the vector `map`. -/
def mapIdxGo (f : JSNum → ℕ → JSNum) : List JSNum → ℕ → List JSNum
  | [], _ => []
  | x :: xs, i => f x i :: mapIdxGo f xs (i + 1)

/-- `map(fn, vector) = vector.map(fn)` — elementwise map passing the
index as second argument. -/
def vmap (f : JSNum → ℕ → JSNum) (v : List JSNum) : List JSNum :=
  mapIdxGo f v 0

/-- `Array.prototype.reduce` with the `(accumulator, element, index)`
callback, as used by the vector `reduce` helper. -/
def reduceIdx (f : JSNum → JSNum → ℕ → JSNum) :
    List JSNum → JSNum → ℕ → JSNum
  | [], acc, _ => acc
  | x :: xs, acc, i => reduceIdx f xs (f acc x i) (i + 1)

/-- JS indexing `rs[idx]` in an arithmetic context: an out-of-range read
yields `undefined`, which any arithmetic coerces to NaN, so it is
modelled as `nan`. -/
def jsIndexN (rs : List JSNum) (i : ℕ) : JSNum := rs.getD i nan

/-- `add(augend, addend) = zipWith((a, b) => a + b, augend, addend)`. -/
def vadd (augend addend : List JSNum) : List JSNum := vzip jsAdd augend addend

/-- `sub(minuend, subtrahend) = zipWith(subtract, minuend, subtrahend)`. -/
def vsub (minuend subtrahend : List JSNum) : List JSNum := vzip jsSub minuend subtrahend

/-- `mul(vector, scalar) = map(mulBy(scalar), vector)` (the callback
ignores the index argument `map` passes). -/
def vmul (vector : List JSNum) (scalar : JSNum) : List JSNum :=
  vmap (fun n _ => mulBy scalar n) vector

/-- `div(vector, scalar) = map(divBy(scalar), vector)`. -/
def vdiv (vector : List JSNum) (scalar : JSNum) : List JSNum :=
  vmap (fun n _ => divBy scalar n) vector

/-- `dot(ls, rs) = reduce((acc, cur, idx) => acc + cur * rs[idx], ls)`,
initial accumulator 0. -/
def dot (ls rs : List JSNum) : JSNum :=
  reduceIdx (fun acc cur idx => jsAdd acc (jsMul cur (jsIndexN rs idx))) ls (num 0) 0

/-- `dot2(ls, rs) = sum(zipWith(multiply, ls, rs))` — the draft variant. -/
def dot2 (ls rs : List JSNum) : JSNum := sum (vzip jsMul ls rs)

/-- `magSquared(v) = reduce((acc, val) => acc + val * val, v)`. -/
def magSquared (v : List JSNum) : JSNum :=
  reduceIdx (fun acc val _ => jsAdd acc (jsMul val val)) v (num 0) 0

/-- `magnitude(v) = Math.sqrt(magSquared(v))`. -/
def magnitude (v : List JSNum) : JSNum := jsqrt (magSquared v)

/-- `unit(v) = map(divBy(magnitude(v)), v)`. -/
def unit (v : List JSNum) : List JSNum :=
  vmap (fun n _ => divBy (magnitude v) n) v

/-- Modelled from the spec: the vector-algebra module imported by the
`NDimVector` class (the one exposing `midpoint`/`magnitudeSquared`) is
not among the provided sources; §4.3 gives
`midpoint(a, b) = zipWith((x, y) => (x + y) / 2, a, b)` (it coincides
with `mid` of `vector/math.ts`). -/
def midpoint (ls rs : List JSNum) : List JSNum :=
  vzip (fun l r => jsDiv (jsAdd l r) (num 2)) ls rs

/-- Elementwise JS `==` comparison of two sequences (false when the
lengths differ). -/
def eqwise : List JSNum → List JSNum → Bool
  | [], [] => true
  | x :: xs, y :: ys => jsEq x y && eqwise xs ys
  | _, _ => false

/-! ## `Maybe` — `src/lib/fn/maybe1.ts`

The backing field `value : T | None` (with `None` the sentinel symbol)
is modelled as `Option`: `Option.none` is the stored sentinel.  A JS
input that may be null/undefined-equivalent is a `JSValue`. -/

/-- A JS value of underlying type `α` that may instead be `null` or
`undefined` (the two null/undefined-equivalent absent values). -/
inductive JSValue (α : Type) : Type where
  | val (a : α)
  | jsNull
  | jsUndef
deriving DecidableEq, Repr

/-- The `value === null || value === undefined` test in `Maybe.just`. -/
def isAbsent {α : Type} : JSValue α → Bool
  | .val _ => false
  | _ => true

/-- The `Maybe` container: one private field holding either a present
value or the `none` sentinel. -/
structure Maybe (α : Type) : Type where
  value : Option α
deriving DecidableEq, Repr

/-- `Maybe.none()` — constructs the container holding the sentinel. -/
def Maybe.none {α : Type} : Maybe α := ⟨Option.none⟩

/-- `Maybe.just(value)`: returns `Maybe.none()` when the value is
null/undefined-equivalent, otherwise wraps the value. -/
def Maybe.just {α : Type} (value : JSValue α) : Maybe α :=
  match value with
  | .val a => ⟨some a⟩
  | _ => Maybe.none

/-- `Maybe.from(value) = Maybe.just(value)`. -/
def Maybe.fromValue {α : Type} (value : JSValue α) : Maybe α := Maybe.just value

/-- `map(f)`: on the sentinel returns `Maybe.none()`; otherwise routes
`f(value)` through `Maybe.just` — `f` may return a
null/undefined-equivalent value, so its codomain is `JSValue`.  `f` is
applied exactly once, to the single stored value. -/
def Maybe.map {α β : Type} (m : Maybe α) (f : α → JSValue β) : Maybe β :=
  match m.value with
  | Option.none => Maybe.none
  | some v => Maybe.just (f v)

/-- `flatMap(f)`: on the sentinel returns `Maybe.none()`; otherwise
returns `f(value)` directly. -/
def Maybe.flatMap {α β : Type} (m : Maybe α) (f : α → Maybe β) : Maybe β :=
  match m.value with
  | Option.none => Maybe.none
  | some v => f v

/-- `match({just, none})` (source name `match`, a Lean keyword).  The
destructured parameter `none` shadows the module-level sentinel symbol,
so the test `this.value === none` compares the stored value with the
none HANDLER — a function.  For a None instance the stored value is the
sentinel symbol, a symbol is never a function, the test is false, and
the method falls through to `just(this.value as T)`: the just handler
is invoked with the sentinel.  The just handler is therefore modelled
on the widened domain `Option α` it can actually receive
(`Option.none` standing for the sentinel argument).  For a stored value
of type `α` the identity test against the caller's handler function is
likewise false in this typed model (a stored `α` value is not the
handler function; the pathological call that stores the very handler
function it later passes is outside the model), so the none handler is
unreachable — dead code the embedding keeps to mirror the signature. -/
def Maybe.matchWith {α β : Type} (m : Maybe α) (j : Option α → β) (n : Unit → β) : β :=
  match m.value with
  | Option.none => j Option.none
  | some v => j (some v)

/-! ## `NDimVector` — the named-component wrapper class

The constructor stores the component array and then copies
`Object.getOwnPropertyDescriptors(this.mappedComponents)` onto the
proxied instance.  `mappedComponents` builds a plain object whose
properties `x`, `y`, `z`, `w` (the first `min(4, N)` labels) hold the
component *values* at construction time, so the copy installs snapshot
data properties on the proxy target.  Thereafter:
* a named read (`v.x`) finds the own data property on the target (the
  proxy `get` trap forwards only properties *not* in the target) and
  returns the snapshot;
* a named write (`v.x = c`) likewise hits the own data property, not
  `components`;
* `getItem`/`setItem` and numeric-index proxy traffic read and write
  `components` directly.

An instance is therefore a pair of sequences: the backing `components`
and the `named` snapshot fields.  Instances are objects with identity
and in-place mutation, so the embedding threads an explicit heap: a
list of allocated instances addressed by position, with construction
appending a fresh cell. -/

/-- The mutable state of one `NDimVector` instance. -/
structure VecObj : Type where
  components : List JSNum
  named : List JSNum
deriving DecidableEq, Repr

instance : Inhabited VecObj := ⟨⟨[], []⟩⟩

/-- Construction: store the components and install the named snapshot
properties (first `min(4, N)` labels, values copied now). -/
def mkVecObj (cs : List JSNum) : VecObj := ⟨cs, cs.take 4⟩

/-- The heap of allocated `NDimVector` instances; a reference is a
position in it. -/
abbrev Heap := List VecObj

/-- `new NDimVector(...)`: appends a fresh cell, returning its
reference. -/
def alloc (h : Heap) (o : VecObj) : ℕ × Heap := (h.length, h ++ [o])

namespace NDim

/-- Read `this.components` of the instance at `r`. -/
def components (h : Heap) (r : ℕ) : List JSNum := (h.getD r default).components

/-- `getItem(index) = this.components[index]` (out-of-range reads give
`undefined`, i.e. `Option.none`). -/
def getItem (h : Heap) (r : ℕ) (index : ℕ) : Option JSNum :=
  (h.getD r default).components.get? index

/-- `setItem(index, value)`: writes `this.components[index] = value` in
place (the `named` snapshot fields are untouched). -/
def setItem (h : Heap) (r : ℕ) (index : ℕ) (value : JSNum) : Heap :=
  h.set r { components := (h.getD r default).components.set index value,
            named := (h.getD r default).named }

/-- Read the named axis property `x`/`y`/`z`/`w` (axis `i` in 0..3): the
own snapshot data property installed at construction.  Beyond the
dimension the property does not exist and the proxy's numeric fallback
reads `components[NaN] = undefined`, so the read is `Option.none`
either way. -/
def namedGet (h : Heap) (r : ℕ) (i : ℕ) : Option JSNum :=
  (h.getD r default).named.get? i

/-- Write the named axis property `x`/`y`/`z`/`w` (axis `i` in 0..3,
within the dimension): updates the snapshot data property in place;
`components` is untouched. -/
def namedSet (h : Heap) (r : ℕ) (i : ℕ) (value : JSNum) : Heap :=
  h.set r { components := (h.getD r default).components,
            named := (h.getD r default).named.set i value }

/-- `add(other)`: delegates to the algebra on the unwrapped components
(`getComponents` unwraps an instance argument to its raw components;
the embedding takes the raw sequence) and wraps the sum in a freshly
constructed instance. -/
def add (h : Heap) (r : ℕ) (other : List JSNum) : ℕ × Heap :=
  alloc h (mkVecObj (vadd (components h r) other))

/-- `sub(other)`: fresh instance wrapping the difference. -/
def sub (h : Heap) (r : ℕ) (other : List JSNum) : ℕ × Heap :=
  alloc h (mkVecObj (vsub (components h r) other))

/-- `mul(scalar)`: fresh instance wrapping the scaled components. -/
def mul (h : Heap) (r : ℕ) (scalar : JSNum) : ℕ × Heap :=
  alloc h (mkVecObj (vmul (components h r) scalar))

/-- `div(scalar)`: fresh instance wrapping the quotient components. -/
def div (h : Heap) (r : ℕ) (scalar : JSNum) : ℕ × Heap :=
  alloc h (mkVecObj (vdiv (components h r) scalar))

/-- The `unit` getter: fresh instance wrapping the normalized
components. -/
def unitM (h : Heap) (r : ℕ) : ℕ × Heap :=
  alloc h (mkVecObj (TsVec.unit (components h r)))

/-- `midpoint(other)`: fresh instance wrapping the midpoint. -/
def midpointM (h : Heap) (r : ℕ) (other : List JSNum) : ℕ × Heap :=
  alloc h (mkVecObj (TsVec.midpoint (components h r) other))

/-- `map(fn)`: fresh instance wrapping the mapped components. -/
def mapM (h : Heap) (r : ℕ) (fn : JSNum → ℕ → JSNum) : ℕ × Heap :=
  alloc h (mkVecObj (vmap fn (components h r)))

end NDim

/-! ## Lemmas about the `zipWith` recursion -/

lemma headI_eq_getD {α : Type} [Inhabited α] (l : List α) :
    l.headI = l.getD 0 default := by
  cases l <;> rfl

lemma tail_getD_succ {α : Type} (l : List α) (i : ℕ) (d : α) :
    l.tail.getD i d = l.getD (i + 1) d := by
  cases l <;> rfl

lemma shortest_cons₂ {α : Type} (l l' : List α) (ls : List (List α)) :
    shortest (l :: l' :: ls) = min l.length (shortest (l' :: ls)) := rfl

lemma mem_shortest_le {α : Type} :
    ∀ (xs : List (List α)) (l : List α), l ∈ xs → shortest xs ≤ l.length := by
  intro xs
  induction xs with
  | nil => intro l hl; cases hl
  | cons x xs ih =>
    intro l hl
    cases xs with
    | nil =>
      rcases List.mem_singleton.mp hl with rfl
      exact le_rfl
    | cons x' xs' =>
      rw [shortest_cons₂]
      rcases List.mem_cons.mp hl with rfl | hl'
      · exact min_le_left _ _
      · exact le_trans (min_le_right _ _) (ih l hl')

lemma shortest_pos_of_forall_ne {α : Type} :
    ∀ (xs : List (List α)), xs ≠ [] → (∀ l ∈ xs, l ≠ []) → 1 ≤ shortest xs := by
  intro xs
  induction xs with
  | nil => intro h; exact absurd rfl h
  | cons x xs ih =>
    intro _ hall
    cases xs with
    | nil =>
      have hx : x ≠ [] := hall x (List.mem_singleton.mpr rfl)
      simpa [shortest] using List.length_pos.mpr hx
    | cons x' xs' =>
      rw [shortest_cons₂]
      refine le_min ?_ ?_
      · exact List.length_pos.mpr (hall x (List.mem_cons_self _ _))
      · exact ih (by simp) fun l hl => hall l (List.mem_cons_of_mem _ hl)

lemma any_isEmpty_of_shortest_zero {α : Type} (xs : List (List α))
    (hne : xs ≠ []) (hs : shortest xs = 0) : xs.any List.isEmpty = true := by
  by_contra hany
  have hall : ∀ l ∈ xs, l ≠ [] := by
    intro l hl hl0
    exact hany (List.any_eq_true.mpr ⟨l, hl, by simp [hl0]⟩)
  have := shortest_pos_of_forall_ne xs hne hall
  omega

lemma shortest_zero_of_any_isEmpty {α : Type} (xs : List (List α))
    (hany : xs.any List.isEmpty = true) : shortest xs = 0 := by
  obtain ⟨l, hl, hl0⟩ := List.any_eq_true.mp hany
  have hl0' : l = [] := by simpa using hl0
  have := mem_shortest_le xs l hl
  rw [hl0'] at this
  simpa using this

lemma shortest_map_tail {α : Type} :
    ∀ (xs : List (List α)), (∀ l ∈ xs, l ≠ []) →
      shortest (xs.map List.tail) = shortest xs - 1 := by
  intro xs
  induction xs with
  | nil => intro _; rfl
  | cons x xs ih =>
    intro hall
    cases xs with
    | nil =>
      simp only [List.map_cons, List.map_nil]
      show x.tail.length = shortest [x] - 1
      simp [shortest, List.length_tail]
    | cons x' xs' =>
      simp only [List.map_cons] at ih ⊢
      rw [shortest_cons₂, shortest_cons₂,
        ih fun l hl => hall l (List.mem_cons_of_mem _ hl), List.length_tail]
      have hx : 1 ≤ x.length :=
        List.length_pos.mpr (hall x (List.mem_cons_self _ _))
      have hx' : 1 ≤ shortest (x' :: xs') :=
        shortest_pos_of_forall_ne _ (by simp)
          fun l hl => hall l (List.mem_cons_of_mem _ hl)
      omega

/-- One-step unfolding of the fuel-indexed recursion. -/
lemma zipWithFuel_succ {α β : Type} [Inhabited α] (fn : List α → β)
    (fuel : ℕ) (xs : List (List α)) :
    zipWithFuel fn (fuel + 1) xs =
      if xs.any List.isEmpty then some []
      else
        match zipWithFuel fn fuel (xs.map List.tail) with
        | none => none
        | some rest => some (fn (xs.map List.headI) :: rest) := rfl

/-- Characterization of the terminating runs: on a nonempty family of
input arrays, fuel `shortest + 1` produces the sequence of `fn` applied
columnwise, of length `shortest`. -/
lemma zipWithFuel_spec {α β : Type} [Inhabited α] :
    ∀ (n : ℕ) (xs : List (List α)) (fn : List α → β), xs ≠ [] → shortest xs = n →
      ∃ r : List β, zipWithFuel fn (n + 1) xs = some r ∧ r.length = n ∧
        ∀ i, i < n → r.get? i = some (fn (xs.map fun l => l.getD i default)) := by
  intro n
  induction n with
  | zero =>
    intro xs fn hne hs
    have hany := any_isEmpty_of_shortest_zero xs hne hs
    exact ⟨[], by simp [zipWithFuel, hany], rfl, fun i hi => absurd hi (Nat.not_lt_zero i)⟩
  | succ n ih =>
    intro xs fn hne hs
    have hall : ∀ l ∈ xs, l ≠ [] := by
      intro l hl hl0
      have := mem_shortest_le xs l hl
      rw [hl0] at this
      simp at this
      omega
    have hany : xs.any List.isEmpty = false := by
      rw [List.any_eq_false]
      intro l hl
      simpa using hall l hl
    have hmtne : xs.map List.tail ≠ [] := by
      cases xs with
      | nil => exact absurd rfl hne
      | cons _ _ => simp
    have hst : shortest (xs.map List.tail) = n := by
      rw [shortest_map_tail xs hall, hs]
      omega
    obtain ⟨r', hr', hlen, hidx⟩ := ih (xs.map List.tail) fn hmtne hst
    refine ⟨fn (xs.map List.headI) :: r', ?_, by simp [hlen], ?_⟩
    · rw [zipWithFuel_succ, if_neg (by simp [hany]), hr']
    · intro i hi
      cases i with
      | zero =>
        have : (List.headI : List α → α) = fun l => l.getD 0 default := by
          funext l
          exact headI_eq_getD l
        simp [this]
      | succ i =>
        have harg : (xs.map List.tail).map (fun l => l.getD i default) =
            xs.map fun l => l.getD (i + 1) default := by
          rw [List.map_map]
          have : (fun l => l.getD i default) ∘ (List.tail : List α → List α) =
              fun l : List α => l.getD (i + 1) default := by
            funext l
            exact tail_getD_succ l i default
          rw [this]
        have := hidx i (by omega)
        rw [harg] at this
        simpa using this

/-- With zero input arrays the recursion never terminates: the `some`
guard is vacuously false and the recursive call repeats the same
arguments. -/
lemma zipWithFuel_no_inputs {α β : Type} [Inhabited α] (fn : List α → β) :
    ∀ fuel, zipWithFuel fn fuel ([] : List (List α)) = none := by
  intro fuel
  induction fuel with
  | zero => rfl
  | succ fuel ih => simp [zipWithFuel, ih]

/-- The binary call of `vector/math.ts` always terminates and agrees
with the standard truncating binary zip. -/
lemma zipWithFuel_pair (f : JSNum → JSNum → JSNum) :
    ∀ (xs ys : List JSNum),
      zipWithFuel (bin2 f) (min xs.length ys.length + 1) [xs, ys] =
        some (List.zipWith f xs ys) := by
  intro xs
  induction xs with
  | nil => intro ys; simp [zipWithFuel]
  | cons x xs ih =>
    intro ys
    cases ys with
    | nil => simp [zipWithFuel]
    | cons y ys =>
      have hmin : min (x :: xs).length (y :: ys).length = min xs.length ys.length + 1 := by
        simp [Nat.succ_min_succ]
      rw [hmin, zipWithFuel_succ, if_neg (by simp)]
      simp only [List.map_cons, List.map_nil, List.tail_cons]
      rw [ih ys]
      rfl

lemma vzip_eq (f : JSNum → JSNum → JSNum) (xs ys : List JSNum) :
    vzip f xs ys = List.zipWith f xs ys := by
  have hshort : shortest [xs, ys] = min xs.length ys.length := by
    simp [shortest_cons₂, shortest]
  rw [vzip, zipWithRun, hshort, zipWithFuel_pair f xs ys]
  rfl

/-! ## Claim C3 -/

/-- Claim C3: `zipWith(fn, seq1, …, seqK)` returns a new sequence whose
i-th element is `fn(seq1[i], …, seqK[i])` for i from 0 up to (exclusive)
the length of the shortest input; in particular an empty input forces
the empty result.  The embedding is pure, so no input is mutated. -/
theorem zipWith_elementwise_shortest {α β : Type} [Inhabited α]
    (fn : List α → β) (xs : List (List α)) (hne : xs ≠ []) :
    ∃ r : List β, zipWithRun fn xs = some r ∧ r.length = shortest xs ∧
      (∀ i, i < shortest xs →
        r.get? i = some (fn (xs.map fun l => l.getD i default))) ∧
      (xs.any List.isEmpty = true → r = []) := by
  obtain ⟨r, h1, h2, h3⟩ := zipWithFuel_spec (shortest xs) xs fn hne rfl
  refine ⟨r, h1, h2, h3, fun hany => ?_⟩
  rw [shortest_zero_of_any_isEmpty xs hany] at h2
  exact List.length_eq_zero.mp h2

/-- Witness for C3 at `fn = fold of +`, inputs `[[1,2,3],[4,5]]`. -/
theorem zipWith_elementwise_shortest_witness :
    ([[(1 : ℚ), 2, 3], [4, 5]] : List (List ℚ)) ≠ [] ∧
      ∃ r : List ℚ,
        zipWithRun (fun l => l.foldl (· + ·) 0) [[(1 : ℚ), 2, 3], [4, 5]] = some r ∧
        r.length = shortest [[(1 : ℚ), 2, 3], [4, 5]] ∧
        (∀ i, i < shortest [[(1 : ℚ), 2, 3], [4, 5]] →
          r.get? i = some ((([[(1 : ℚ), 2, 3], [4, 5]] : List (List ℚ)).map
            fun l => l.getD i default).foldl (· + ·) 0)) ∧
        (([[(1 : ℚ), 2, 3], [4, 5]] : List (List ℚ)).any List.isEmpty = true → r = []) :=
  ⟨by decide, zipWith_elementwise_shortest _ _ (by decide)⟩

/-! ## Claim C10 -/

/-- Claim C10 (amended): the recursive `zipWith` terminates on every
*nonempty* finite tuple of input arrays — fuel `shortest + 1` always
suffices, since each recursive call strictly decreases the shortest
input length; on the empty tuple of arrays the recursion never
terminates (see the counterexample). -/
theorem zipWith_terminates_nonempty_inputs {α β : Type} [Inhabited α]
    (fn : List α → β) (xs : List (List α)) (hne : xs ≠ []) :
    (zipWithFuel fn (shortest xs + 1) xs).isSome = true := by
  obtain ⟨r, h1, _, _⟩ := zipWithFuel_spec (shortest xs) xs fn hne rfl
  simp [h1]

/-- Witness for C10 at inputs `[[1,2],[3]]`. -/
theorem zipWith_terminates_nonempty_inputs_witness :
    ([[(1 : ℚ), 2], [3]] : List (List ℚ)) ≠ [] ∧
      (zipWithFuel (fun _ => (0 : ℚ)) (shortest [[(1 : ℚ), 2], [3]] + 1)
        [[(1 : ℚ), 2], [3]]).isSome = true :=
  ⟨by decide, zipWith_terminates_nonempty_inputs _ _ (by decide)⟩

/-- Counterexample to C10 as stated: on the (finite) empty tuple of
input arrays, the `some(isEmpty)` guard is false and the recursion
calls itself with identical arguments, so `zipWith(fn)` never
terminates (stack overflow in JS): no amount of fuel yields a result. -/
theorem zipWith_diverges_zero_inputs : zwDiverges (fun _ => (0 : ℚ)) [] :=
  fun fuel => zipWithFuel_no_inputs _ fuel

/-! ## Claim C1 -/

/-- Claim C1 (amended): a binary vector operation performs no runtime
dimension check — dimension agreement is enforced only by the
compile-time type parameter.  On operands of different lengths `add`
raises nothing and silently truncates: it returns the elementwise sum
of the common prefix, of the shorter length. -/
theorem vadd_truncates_to_shortest (a b : List JSNum) :
    vadd a b = List.zipWith jsAdd a b ∧
      (vadd a b).length = min a.length b.length := by
  refine ⟨vzip_eq jsAdd a b, ?_⟩
  rw [show vadd a b = List.zipWith jsAdd a b from vzip_eq jsAdd a b]
  exact List.length_zipWith ..

/-- Counterexample to C1 as stated: `add` on a length-2 and a length-3
vector raises no DimensionMismatch and *does* produce a partial
(truncated) result. -/
theorem vadd_length_mismatch_truncated :
    vadd [num 1, num 2] [num 3, num 4, num 5] = [num 4, num 6] := by
  rw [show vadd [num 1, num 2] [num 3, num 4, num 5] =
      List.zipWith jsAdd [num 1, num 2] [num 3, num 4, num 5] from vzip_eq ..]
  simp only [List.zipWith_cons_cons, List.zipWith_nil_left, jsAdd]
  norm_num

/-! ## Claim C4 -/

lemma magSquared_zeros (v : List JSNum) (hv : ∀ x ∈ v, x = num 0) :
    magSquared v = num 0 := by
  have key : ∀ (w : List JSNum) (k : ℕ), (∀ x ∈ w, x = num 0) →
      reduceIdx (fun acc val _ => jsAdd acc (jsMul val val)) w (num 0) k = num 0 := by
    intro w
    induction w with
    | nil => intro k _; rfl
    | cons x w ih =>
      intro k hw
      have hx : x = num 0 := hw x (List.mem_cons_self _ _)
      subst hx
      show reduceIdx (fun acc val _ => jsAdd acc (jsMul val val)) w
        (jsAdd (num 0) (jsMul (num 0) (num 0))) (k + 1) = num 0
      have h0 : jsAdd (num 0) (jsMul (num 0) (num 0)) = num 0 := by
        simp [jsAdd, jsMul]
      rw [h0]
      exact ih (k + 1) fun y hy => hw y (List.mem_cons_of_mem _ hy)
  exact key v 0 hv

lemma jsqrt_zero : jsqrt (num 0) = num 0 := by
  simp [jsqrt, ratSqrt]

lemma mapIdxGo_zero_div :
    ∀ (v : List JSNum) (k : ℕ), (∀ x ∈ v, x = num 0) →
      mapIdxGo (fun n _ => divBy (num 0) n) v k = List.replicate v.length nan := by
  intro v
  induction v with
  | nil => intro k _; rfl
  | cons x v ih =>
    intro k hv
    have hx : x = num 0 := hv x (List.mem_cons_self _ _)
    subst hx
    show divBy (num 0) (num 0) :: mapIdxGo (fun n _ => divBy (num 0) n) v (k + 1) =
      List.replicate (v.length + 1) nan
    rw [ih (k + 1) fun y hy => hv y (List.mem_cons_of_mem _ hy)]
    have hdiv : divBy (num 0) (num 0) = nan := by simp [divBy, jsDiv]
    rw [hdiv, List.replicate_succ]

/-- Claim C4: on a zero vector `unit` returns a vector all of whose
components are NaN (each is 0/0): magnitude of the zero vector is 0,
and dividing each zero component by it yields NaN.  The embedded
function is total — no exception path exists — and the NaN components
are returned, not guarded against. -/
theorem unit_zero_vector_all_nan (v : List JSNum) (hv : ∀ x ∈ v, x = num 0) :
    unit v = List.replicate v.length nan := by
  have hm : magnitude v = num 0 := by
    rw [magnitude, magSquared_zeros v hv, jsqrt_zero]
  simp only [unit, vmap, hm]
  exact mapIdxGo_zero_div v 0 hv

/-- Witness for C4 at the zero vector `[0, 0]`. -/
theorem unit_zero_vector_all_nan_witness :
    (∀ x ∈ ([num 0, num 0] : List JSNum), x = num 0) ∧
      unit [num 0, num 0] = List.replicate ([num 0, num 0] : List JSNum).length nan :=
  ⟨by decide, unit_zero_vector_all_nan _ (by decide)⟩

/-! ## Claim C5 -/

/-- Spec-side formalization of the dot product for the refinement
claim: the left fold of `+` seeded at 0 over the index-ordered products
`a[i] * b[i]`. -/
def dotSpec (a b : List JSNum) : JSNum :=
  (List.zipWith jsMul a b).foldl jsAdd (num 0)

lemma reduceIdx_dot_drop (rs : List JSNum) :
    ∀ (a : List JSNum) (k : ℕ) (acc : JSNum), k + a.length ≤ rs.length →
      reduceIdx (fun acc cur idx => jsAdd acc (jsMul cur (jsIndexN rs idx))) a acc k =
        (List.zipWith jsMul a (rs.drop k)).foldl jsAdd acc := by
  intro a
  induction a with
  | nil => intro k acc _; simp [reduceIdx]
  | cons x a ih =>
    intro k acc h
    have hk : k < rs.length := by simp at h; omega
    show reduceIdx (fun acc cur idx => jsAdd acc (jsMul cur (jsIndexN rs idx))) a
      (jsAdd acc (jsMul x (jsIndexN rs k))) (k + 1) = _
    rw [ih (k + 1) _ (by simp at h ⊢; omega)]
    have hidx : jsIndexN rs k = rs[k] := by
      simp [jsIndexN, List.getD_eq_getElem?_getD, List.getElem?_eq_getElem hk]
    rw [hidx, List.drop_eq_getElem_cons hk, List.zipWith_cons_cons, List.foldl_cons]

/-- Claim C5: `dot` computes the left fold seeded at 0 of the products
`a[i] * b[i]` in index order, and the draft variant `dot2` returns the
same value. -/
theorem dot_left_fold_dot2_agree (a b : List JSNum) (h : a.length = b.length) :
    dot a b = dotSpec a b ∧ dot2 a b = dot a b := by
  have hd : dot a b = dotSpec a b := by
    rw [dot, dotSpec, reduceIdx_dot_drop b a 0 (num 0) (by omega), List.drop_zero]
  have hd2 : dot2 a b = dotSpec a b := by
    rw [dot2, sum, vzip_eq, dotSpec]
  exact ⟨hd, by rw [hd2, hd]⟩

/-- Witness for C5 at `a = [1, 2]`, `b = [3, 4]`. -/
theorem dot_left_fold_dot2_agree_witness :
    ([num 1, num 2] : List JSNum).length = ([num 3, num 4] : List JSNum).length ∧
      (dot [num 1, num 2] [num 3, num 4] = dotSpec [num 1, num 2] [num 3, num 4] ∧
        dot2 [num 1, num 2] [num 3, num 4] = dot [num 1, num 2] [num 3, num 4]) :=
  ⟨rfl, dot_left_fold_dot2_agree _ _ rfl⟩

/-! ## Claim C7 -/

lemma zip_add_comm_eqwise : ∀ (a b : List ℚ),
    eqwise (List.zipWith jsAdd (a.map num) (b.map num))
      (List.zipWith jsAdd (b.map num) (a.map num)) = true := by
  intro a
  induction a with
  | nil => intro b; cases b <;> rfl
  | cons x a ih =>
    intro b
    cases b with
    | nil => rfl
    | cons y b =>
      simp only [List.map_cons, List.zipWith_cons_cons, eqwise, jsAdd, jsEq,
        Bool.and_eq_true, decide_eq_true_eq]
      exact ⟨add_comm x y, ih b⟩

lemma zip_sub_neg_eqwise : ∀ (a b : List ℚ),
    eqwise (List.zipWith jsSub (a.map num) (b.map num))
      ((List.zipWith jsSub (b.map num) (a.map num)).map fun n => jsMul (num (-1)) n) =
      true := by
  intro a
  induction a with
  | nil => intro b; cases b <;> rfl
  | cons x a ih =>
    intro b
    cases b with
    | nil => rfl
    | cons y b =>
      simp only [List.map_cons, List.zipWith_cons_cons, eqwise, jsSub, jsMul, jsEq,
        Bool.and_eq_true, decide_eq_true_eq]
      exact ⟨by ring, ih b⟩

lemma mapIdxGo_const (g : JSNum → JSNum) :
    ∀ (v : List JSNum) (k : ℕ), mapIdxGo (fun n _ => g n) v k = v.map g := by
  intro v
  induction v with
  | nil => intro _; rfl
  | cons x v ih => intro k; simp [mapIdxGo, ih]

/-- Claim C7: on vectors of (finite) real components — the spec's data
model — `add` is commutative elementwise under JS `==`, and
`sub(a, b) == mul(sub(b, a), -1)` elementwise (0 == -0 is equality
here, zeros being conflated). -/
theorem add_comm_sub_neg_elementwise (a b : List ℚ) (_h : a.length = b.length) :
    eqwise (vadd (a.map num) (b.map num)) (vadd (b.map num) (a.map num)) = true ∧
      eqwise (vsub (a.map num) (b.map num))
        (vmul (vsub (b.map num) (a.map num)) (num (-1))) = true := by
  constructor
  · simp only [vadd, vzip_eq]
    exact zip_add_comm_eqwise a b
  · simp only [vsub, vmul, vmap, vzip_eq, mulBy, mapIdxGo_const]
    exact zip_sub_neg_eqwise a b

/-- Witness for C7 at `a = [1, 2]`, `b = [3, 4]`. -/
theorem add_comm_sub_neg_elementwise_witness :
    ([(1 : ℚ), 2] : List ℚ).length = ([(3 : ℚ), 4] : List ℚ).length ∧
      (eqwise (vadd ([(1 : ℚ), 2].map num) ([(3 : ℚ), 4].map num))
          (vadd ([(3 : ℚ), 4].map num) ([(1 : ℚ), 2].map num)) = true ∧
        eqwise (vsub ([(1 : ℚ), 2].map num) ([(3 : ℚ), 4].map num))
          (vmul (vsub ([(3 : ℚ), 4].map num) ([(1 : ℚ), 2].map num)) (num (-1))) =
          true) :=
  ⟨rfl, add_comm_sub_neg_elementwise _ _ rfl⟩

/-! ## Claim C6 -/

/-- Claim C6 (code bug): `Maybe.just` of a null/undefined-equivalent
value does construct None, but eliminating the result with `match`
invokes the JUST handler, not the none handler: the destructured
parameter `none` shadows the sentinel symbol, so `this.value === none`
compares the stored sentinel with the handler function, is false, and
the method falls through to `just(this.value as T)` with the sentinel
as argument.  Evaluated at the spec's §8 test
`none().match({just: x => x, none: () => -1})`: the result is the
sentinel passed through the just handler (modelled `Option.none`), not
-1. -/
theorem match_none_invokes_just_handler :
    Maybe.just (JSValue.jsNull : JSValue ℚ) = Maybe.none ∧
      (Maybe.just (JSValue.jsNull : JSValue ℚ)).matchWith (fun o => o)
        (fun _ => some (-1)) = Option.none ∧
      (Maybe.none : Maybe ℚ).matchWith (fun o => o) (fun _ => some (-1)) ≠
        some (-1) :=
  ⟨rfl, rfl, by decide⟩

/-! ## Claim C9 -/

/-- Claim C9: `map` routes its result through the `just` coercion —
`just(v).map(f) = just(f(v))`, with `f` applied once to the single
stored value — so when `f(v)` is null/undefined-equivalent a Just
collapses to None rather than producing a Just of an absent value. -/
theorem map_absent_collapses_to_none {α β : Type} (v : α) (f : α → JSValue β)
    (h : isAbsent (f v) = true) :
    (Maybe.just (JSValue.val v)).map f = Maybe.just (f v) ∧
      (Maybe.just (JSValue.val v)).map f = (Maybe.none : Maybe β) := by
  refine ⟨rfl, ?_⟩
  show Maybe.just (f v) = Maybe.none
  cases hfv : f v with
  | val b => rw [hfv] at h; simp [isAbsent] at h
  | jsNull => rfl
  | jsUndef => rfl

/-- Witness for C9 at `v = 5`, `f = _ => undefined`. -/
theorem map_absent_collapses_to_none_witness :
    isAbsent ((fun _ : ℚ => (JSValue.jsUndef : JSValue ℚ)) 5) = true ∧
      ((Maybe.just (JSValue.val (5 : ℚ))).map (fun _ => (JSValue.jsUndef : JSValue ℚ)) =
          Maybe.just ((fun _ : ℚ => (JSValue.jsUndef : JSValue ℚ)) 5) ∧
        (Maybe.just (JSValue.val (5 : ℚ))).map (fun _ => (JSValue.jsUndef : JSValue ℚ)) =
          Maybe.none) :=
  ⟨rfl, map_absent_collapses_to_none _ _ rfl⟩

/-! ## Claim C2 -/

/-- Claim C2 fails on the code: the named axis properties are
construction-time *snapshots* of the components, not views of the
backing storage.  Concretely, construct an `NDimVector` from `[3, 4]`:
after `setItem(0, 7)` the indexed read returns 7 but the named read
`x` still returns the stale 3; after a named write `x = 9` (on a fresh
instance) the named read returns 9 but `components[0]` is still 3. -/
theorem named_indexed_views_diverge :
    (NDim.getItem (NDim.setItem (alloc [] (mkVecObj [num 3, num 4])).2 0 0 (num 7)) 0 0 =
        some (num 7) ∧
      NDim.namedGet (NDim.setItem (alloc [] (mkVecObj [num 3, num 4])).2 0 0 (num 7)) 0 0 =
        some (num 3)) ∧
    (NDim.namedGet (NDim.namedSet (alloc [] (mkVecObj [num 3, num 4])).2 0 0 (num 9)) 0 0 =
        some (num 9) ∧
      NDim.getItem (NDim.namedSet (alloc [] (mkVecObj [num 3, num 4])).2 0 0 (num 9)) 0 0 =
        some (num 3)) :=
  ⟨⟨rfl, rfl⟩, rfl, rfl⟩

/-! ## Claim C8 -/

/-- Claim C8: each arithmetic instance method (`add`, `sub`, `mul`,
`div`, `unit`, `midpoint`, `map`) allocates a fresh instance (its
reference is the previously-unused heap position, distinct from the
receiver) and leaves the receiver's cell — in particular its backing
component sequence — unchanged; `setItem` and a named-field write are
the only in-place mutation paths: they allocate nothing and update
exactly the receiver's cell (`setItem` the components, a named write
the named field). -/
theorem ndim_arith_pure_setItem_mutates (h : Heap) (r : ℕ)
    (other : List JSNum) (sc : JSNum) (fn : JSNum → ℕ → JSNum)
    (i : ℕ) (v w : JSNum) (s : ℕ) (hr : r < h.length) (hs : s ≠ r) :
    ((NDim.add h r other).2.get? r = h.get? r ∧
      (NDim.add h r other).1 = h.length ∧ (NDim.add h r other).1 ≠ r) ∧
    ((NDim.sub h r other).2.get? r = h.get? r ∧
      (NDim.sub h r other).1 = h.length ∧ (NDim.sub h r other).1 ≠ r) ∧
    ((NDim.mul h r sc).2.get? r = h.get? r ∧
      (NDim.mul h r sc).1 = h.length ∧ (NDim.mul h r sc).1 ≠ r) ∧
    ((NDim.div h r sc).2.get? r = h.get? r ∧
      (NDim.div h r sc).1 = h.length ∧ (NDim.div h r sc).1 ≠ r) ∧
    ((NDim.unitM h r).2.get? r = h.get? r ∧
      (NDim.unitM h r).1 = h.length ∧ (NDim.unitM h r).1 ≠ r) ∧
    ((NDim.midpointM h r other).2.get? r = h.get? r ∧
      (NDim.midpointM h r other).1 = h.length ∧ (NDim.midpointM h r other).1 ≠ r) ∧
    ((NDim.mapM h r fn).2.get? r = h.get? r ∧
      (NDim.mapM h r fn).1 = h.length ∧ (NDim.mapM h r fn).1 ≠ r) ∧
    ((NDim.setItem h r i v).length = h.length ∧
      (NDim.setItem h r i v).get? r =
        some { components := (h.getD r default).components.set i v,
               named := (h.getD r default).named } ∧
      (NDim.setItem h r i v).get? s = h.get? s) ∧
    ((NDim.namedSet h r i w).length = h.length ∧
      (NDim.namedSet h r i w).get? r =
        some { components := (h.getD r default).components,
               named := (h.getD r default).named.set i w } ∧
      (NDim.namedSet h r i w).get? s = h.get? s) := by
  have happ : ∀ o : VecObj, (h ++ [o]).get? r = h.get? r := fun _ => List.get?_append hr
  have hfresh : h.length ≠ r := ne_of_gt hr
  refine ⟨⟨happ _, rfl, hfresh⟩, ⟨happ _, rfl, hfresh⟩, ⟨happ _, rfl, hfresh⟩,
    ⟨happ _, rfl, hfresh⟩, ⟨happ _, rfl, hfresh⟩, ⟨happ _, rfl, hfresh⟩,
    ⟨happ _, rfl, hfresh⟩, ⟨?_, ?_, ?_⟩, ⟨?_, ?_, ?_⟩⟩
  · simp [NDim.setItem]
  · exact List.get?_set_eq_of_lt _ hr
  · exact List.get?_set_ne _ _ (Ne.symm hs)
  · simp [NDim.namedSet]
  · exact List.get?_set_eq_of_lt _ hr
  · exact List.get?_set_ne _ _ (Ne.symm hs)

/-- The one-instance heap the C8 witness instantiates the theorem at. -/
def wHeap : Heap := [mkVecObj [num 1, num 2]]

/-- Witness for C8 on a heap holding one vector `[1, 2]`, receiver 0,
spectator reference 1. -/
theorem ndim_arith_pure_setItem_mutates_witness :
    (0 : ℕ) < wHeap.length ∧ (1 : ℕ) ≠ 0 ∧
    (((NDim.add wHeap 0 [num 3, num 4]).2.get? 0 = wHeap.get? 0 ∧
       (NDim.add wHeap 0 [num 3, num 4]).1 = wHeap.length ∧
       (NDim.add wHeap 0 [num 3, num 4]).1 ≠ 0) ∧
     ((NDim.sub wHeap 0 [num 3, num 4]).2.get? 0 = wHeap.get? 0 ∧
       (NDim.sub wHeap 0 [num 3, num 4]).1 = wHeap.length ∧
       (NDim.sub wHeap 0 [num 3, num 4]).1 ≠ 0) ∧
     ((NDim.mul wHeap 0 (num 2)).2.get? 0 = wHeap.get? 0 ∧
       (NDim.mul wHeap 0 (num 2)).1 = wHeap.length ∧
       (NDim.mul wHeap 0 (num 2)).1 ≠ 0) ∧
     ((NDim.div wHeap 0 (num 2)).2.get? 0 = wHeap.get? 0 ∧
       (NDim.div wHeap 0 (num 2)).1 = wHeap.length ∧
       (NDim.div wHeap 0 (num 2)).1 ≠ 0) ∧
     ((NDim.unitM wHeap 0).2.get? 0 = wHeap.get? 0 ∧
       (NDim.unitM wHeap 0).1 = wHeap.length ∧ (NDim.unitM wHeap 0).1 ≠ 0) ∧
     ((NDim.midpointM wHeap 0 [num 3, num 4]).2.get? 0 = wHeap.get? 0 ∧
       (NDim.midpointM wHeap 0 [num 3, num 4]).1 = wHeap.length ∧
       (NDim.midpointM wHeap 0 [num 3, num 4]).1 ≠ 0) ∧
     ((NDim.mapM wHeap 0 (fun c _ => c)).2.get? 0 = wHeap.get? 0 ∧
       (NDim.mapM wHeap 0 (fun c _ => c)).1 = wHeap.length ∧
       (NDim.mapM wHeap 0 (fun c _ => c)).1 ≠ 0) ∧
     ((NDim.setItem wHeap 0 0 (num 9)).length = wHeap.length ∧
       (NDim.setItem wHeap 0 0 (num 9)).get? 0 =
         some { components := (wHeap.getD 0 default).components.set 0 (num 9),
                named := (wHeap.getD 0 default).named } ∧
       (NDim.setItem wHeap 0 0 (num 9)).get? 1 = wHeap.get? 1) ∧
     ((NDim.namedSet wHeap 0 0 (num 8)).length = wHeap.length ∧
       (NDim.namedSet wHeap 0 0 (num 8)).get? 0 =
         some { components := (wHeap.getD 0 default).components,
                named := (wHeap.getD 0 default).named.set 0 (num 8) } ∧
       (NDim.namedSet wHeap 0 0 (num 8)).get? 1 = wHeap.get? 1)) :=
  ⟨by decide, by decide,
    ndim_arith_pure_setItem_mutates wHeap 0 [num 3, num 4] (num 2) (fun c _ => c)
      0 (num 9) (num 8) 1 (by decide) (by decide)⟩

end TsVec
